import Mathlib

/-!
Shallow embedding of the Cloudflare Workers API proxy
(anonymous-token issuance/verification, sliding-window rate limiter,
usage tracker, HTTP routing) together with proofs of the spec claims.

Conventions of the embedding:
* JavaScript numbers holding millisecond/second timestamps are `Int`
  (all arithmetic in the source stays on exact integers; `Math.ceil` of a
  division is modelled by exact integer ceiling division).
* Fallible operations (`JSON.parse`, KV reads/writes, `fetch`) are
  `Option`/`Except` values or explicit success flags; a thrown exception
  is the error case.
* The WebCrypto HMAC and base64/JSON payload encoding are abstracted into
  a `CodecKit` of opaque-but-executable functions; the facts the real
  primitives provide (verify-after-sign succeeds, decode inverts encode,
  base64 output is nonempty and dot-free) appear as hypotheses.
-/

set_option autoImplicit false

namespace Proxy

/-- JWT payload as built by `generateAnonymousToken`:
`{userId, iat, exp, type}`.  `exp` is `Option Int` so that a payload
lacking the field (or carrying the falsy `0`, see `expTruthy`) can be
represented. -/
structure JWTPayload where
  userId : String
  iat : Int
  exp : Option Int
  type : String
  deriving DecidableEq

/-- JS truthiness of `payload.exp` in `if (payload.exp && ...)`:
`undefined` and `0` are falsy. -/
def expTruthy : Option Int → Bool
  | none => false
  | some e => e != 0

/-- Abstraction of the encoding/crypto primitives used by `signJWT` /
`verifyJWT`: `encHeader` is `btoa(JSON.stringify({alg:'HS256',typ:'JWT'}))`,
`encodePayload`/`decodePayload` are `btoa∘JSON.stringify` and
`JSON.parse∘atob` (decode failure = thrown exception = `none`),
`hmacSign` maps (secret, data) to the base64 signature segment, and
`hmacVerify` is `crypto.subtle.verify` on (secret, data, signature segment)
with an `atob` failure folded into `false`. -/
structure CodecKit where
  encHeader : String
  encodePayload : JWTPayload → String
  decodePayload : String → Option JWTPayload
  hmacSign : String → String → String
  hmacVerify : String → String → String → Bool

/-- `signJWT(payload, secret)`: `header.payload` then the HMAC segment,
joined with `.`. -/
def signJWT (kit : CodecKit) (payload : JWTPayload) (secret : String) : String :=
  let data := kit.encHeader ++ "." ++ kit.encodePayload payload
  data ++ "." ++ kit.hmacSign secret data

/-- One step of the split: a separator character opens a new empty
segment; any other character is prepended to the current first segment. -/
def splitCons (c : Char) (r : List (List Char)) : List (List Char) :=
  if c = '.' then [] :: r
  else
    match r with
    | h :: t => (c :: h) :: t
    | [] => [[c]]

/-- JavaScript `token.split('.')` (single-character separator), modelled on
the character list of the string. `"".split('.')` is `[""]`. -/
def jsSplitDot : List Char → List (List Char)
  | [] => [[]]
  | c :: rest => splitCons c (jsSplitDot rest)

/-- The destructuring
`const [encodedHeader, encodedPayload, encodedSignature] = token.split('.')`
followed by the falsy check on the three names: segments after the third
are dropped; missing or empty segments make the token malformed. -/
def tokenParts (token : String) : Option (List Char × List Char × List Char) :=
  match jsSplitDot token.data with
  | a :: b :: c :: _ =>
    if a = [] ∨ b = [] ∨ c = [] then none else some (a, b, c)
  | _ => none

/-- Distinct exception paths of `verifyJWT` (each is rethrown wrapped in
`Token verification failed: ...` with the original message preserved). -/
inductive JWTError where
  | malformed
  | badSignature
  | decodeFailed
  | expired
  deriving DecidableEq

/-- `verifyJWT(token, secret)` at wall-clock time `nowMs` milliseconds.
The source compares `payload.exp < Date.now() / 1000` on exact values;
over integers that is `payload.exp * 1000 < nowMs`. -/
def verifyJWT (kit : CodecKit) (token secret : String) (nowMs : Int) :
    Except JWTError JWTPayload :=
  match tokenParts token with
  | none => .error .malformed
  | some (h, p, s) =>
    let data := String.mk h ++ "." ++ String.mk p
    if kit.hmacVerify secret data (String.mk s) then
      match kit.decodePayload (String.mk p) with
      | none => .error .decodeFailed
      | some payload =>
        if expTruthy payload.exp ∧ payload.exp.getD 0 * 1000 < nowMs then
          .error .expired
        else
          .ok payload
    else
      .error .badSignature

/-- `verifyAnonymousToken(token, secret)`: any failure of `verifyJWT` or a
non-`'anonymous'` type collapses into the single
`Invalid anonymous token` error. -/
def verifyAnonymousToken (kit : CodecKit) (token secret : String) (nowMs : Int) :
    Except Unit JWTPayload :=
  match verifyJWT kit token secret nowMs with
  | .error _ => .error ()
  | .ok payload =>
    if payload.type ≠ "anonymous" then .error () else .ok payload

/-- The payload `generateAnonymousToken` signs for identity `id` at time
`now` (seconds) with lifetime `ttl` (seconds). -/
def anonPayload (id : String) (now ttl : Int) : JWTPayload :=
  { userId := id, iat := now, exp := some (now + ttl), type := "anonymous" }

/-- `'.' does not occur in the string` — true of every `btoa` output. -/
def dotFree (s : String) : Prop := '.' ∉ s.data

instance (s : String) : Decidable (dotFree s) := by
  unfold dotFree; infer_instance

/-! ## Usage tracker (`updateUserStats`, `initializeUserStats`) -/

/-- Milliseconds per UTC calendar day. -/
def msPerDay : Int := 24 * 60 * 60 * 1000

/-- The UTC calendar date of an epoch-milliseconds instant, represented by
its day number `⌊now / 86400000⌋`.  Two instants get the same ISO date
string `new Date(now).toISOString().split('T')[0]` exactly when they have
the same day number, and `new Date(dateString)` is midnight UTC of that
date, i.e. `dayOf now * msPerDay`. -/
def dayOf (now : Int) : Int := now / msPerDay

/-- `user_stats:<id>` record:
`{createdAt, totalRequests, lastRequestAt, dailyRequests}`;
`dailyRequests` is the JS object mapping ISO date keys (here: day numbers)
to counts, in insertion order, keys never duplicated. -/
structure UserStats where
  createdAt : Int
  totalRequests : Nat
  lastRequestAt : Option Int
  dailyRequests : List (Int × Nat)
  deriving DecidableEq

/-- `stats.dailyRequests[today] = (stats.dailyRequests[today] || 0) + 1`:
bump an existing key in place, or append the new key with count 1. -/
def bumpDaily : List (Int × Nat) → Int → List (Int × Nat)
  | [], d => [(d, 1)]
  | (k, v) :: rest, d =>
    if k = d then (k, v + 1) :: rest else (k, v) :: bumpDaily rest d

/-- The pruning loop: delete every date key whose UTC midnight is before
`cutoffDate = new Date(now - 30 * 24 * 60 * 60 * 1000)`. -/
def pruneDaily (m : List (Int × Nat)) (now : Int) : List (Int × Nat) :=
  m.filter fun kv => decide (now - 30 * msPerDay ≤ kv.1 * msPerDay)

/-- The record `updateUserStats` initializes when the KV read returns
nothing. -/
def emptyStats (now : Int) : UserStats :=
  { createdAt := now, totalRequests := 0, lastRequestAt := none,
    dailyRequests := [] }

/-- Pure core of `updateUserStats(userId, env)` at time `now`: load or
initialize, increment `totalRequests`, set `lastRequestAt`, bump today's
bucket, then prune keys older than 30 days, yielding the record that is
written back. -/
def updateUserStats (existing : Option UserStats) (now : Int) : UserStats :=
  let stats := existing.getD (emptyStats now)
  { createdAt := stats.createdAt
    totalRequests := stats.totalRequests + 1
    lastRequestAt := some now
    dailyRequests := pruneDaily (bumpDaily stats.dailyRequests (dayOf now)) now }

/-! ## Worker environment and rate limiter (`checkRateLimit`) -/

/-- The bindings and store state a single request sees.  KV contents are
held directly as decoded values; `rateReadOk` covers the
`RATE_LIMIT_KV.get` + `JSON.parse` pair throwing, `rateWriteOk` the
`RATE_LIMIT_KV.put`, and `statsOk` the `USER_STATS_KV` operations (whose
failures `updateUserStats`/`initializeUserStats` swallow). -/
structure WorkerEnv where
  jwtSecret : String
  rateStore : Option (List Int)
  rateReadOk : Bool
  rateWriteOk : Bool
  statsStore : Option UserStats
  statsOk : Bool
  deriving DecidableEq

/-- `updateUserStats(userId, env)` including its own try/catch: a store
failure is logged and swallowed, leaving the stats untouched. -/
def updateUserStatsOp (env : WorkerEnv) (now : Int) : WorkerEnv :=
  if env.statsOk then
    { env with statsStore := some (updateUserStats env.statsStore now) }
  else
    env

/-- `initializeUserStats(userId, env)` with its try/catch. -/
def initUserStatsOp (env : WorkerEnv) (now : Int) : WorkerEnv :=
  if env.statsOk then { env with statsStore := some (emptyStats now) }
  else env

def windowMs : Int := 60 * 60 * 1000

def maxRequests : Nat := 100

/-- Result object of `checkRateLimit`: `{allowed}` or
`{allowed: false, retryAfter}`. -/
structure RateLimitResult where
  allowed : Bool
  retryAfter : Option Int
  deriving DecidableEq

/-- Exact model of `Math.ceil(a / b)` for integer `a` and positive
integer `b` (the source divides exact millisecond integers by 1000). -/
def jsCeilDiv (a b : Int) : Int := -((-a) / b)

/-- `Math.min(...requests)` on a nonempty list (the only use site has
`requests.length >= 100`); the `[]` value is irrelevant. -/
def listMin : List Int → Int
  | [] => 0
  | x :: xs => xs.foldl min x

/-- The timestamps surviving the window filter
`requests.filter(t => now - t < windowMs)`. -/
def keptRequests (stored : Option (List Int)) (now : Int) : List Int :=
  (stored.getD []).filter fun t => decide (now - t < windowMs)

/-- `checkRateLimit(userId, env)` at time `now`, returning the result
object and the environment after the KV writes (the rate-limit put and the
nested `updateUserStats`).  Any throw inside the `try` — the KV read, the
parse, or the put — lands in the catch, which fails open
(`{allowed: true}`) without further writes. -/
def checkRateLimit (env : WorkerEnv) (now : Int) : RateLimitResult × WorkerEnv :=
  if !env.rateReadOk then
    ({ allowed := true, retryAfter := none }, env)
  else
    let requests := keptRequests env.rateStore now
    if requests.length ≥ maxRequests then
      ({ allowed := false
         retryAfter := some (jsCeilDiv (listMin requests + windowMs - now) 1000) },
       env)
    else if !env.rateWriteOk then
      ({ allowed := true, retryAfter := none }, env)
    else
      ({ allowed := true, retryAfter := none },
       updateUserStatsOp { env with rateStore := some (requests ++ [now]) } now)

/-- Iterate `checkRateLimit` over a list of call times, collecting the
results and threading the environment. -/
def runCalls (env : WorkerEnv) : List Int → List RateLimitResult × WorkerEnv
  | [] => ([], env)
  | t :: ts =>
    let res := checkRateLimit env t
    let rest := runCalls res.2 ts
    (res.1 :: rest.1, rest.2)

/-! ## HTTP surface (`fetch`, `handleTokenRequest`, `handleExternalApiRequest`,
`authenticateUser`) -/

instance {ε α : Type _} [DecidableEq ε] [DecidableEq α] :
    DecidableEq (Except ε α) := fun a b =>
  match a, b with
  | .error e, .error f =>
    if h : e = f then .isTrue (by rw [h]) else .isFalse (by simp [h])
  | .error _, .ok _ => .isFalse (by simp)
  | .ok _, .error _ => .isFalse (by simp)
  | .ok x, .ok y =>
    if h : x = y then .isTrue (by rw [h]) else .isFalse (by simp [h])

/-- An inbound request together with the outcomes of its two I/O-dependent
parts: `jsonOk` is whether `await request.json()` succeeds, and
`downstream` is the proxied call (`.ok status` when `fetch` +
`externalResponse.json()` succeed with that upstream status, `.error ()`
when either throws). -/
structure Request where
  method : String
  path : String
  authHeader : Option String
  jsonOk : Bool
  downstream : Except Unit Int
  deriving DecidableEq

/-- `authenticateUser(request, env)`: requires a `Bearer ` authorization
header, strips the first 7 characters, verifies the anonymous token;
any verification failure becomes `Invalid or expired token`. -/
def authenticateUser (kit : CodecKit) (req : Request) (secret : String)
    (nowMs : Int) : Except String JWTPayload :=
  match req.authHeader with
  | none => .error "Missing or invalid authorization header"
  | some h =>
    if !(List.isPrefixOf "Bearer ".data h.data) then
      .error "Missing or invalid authorization header"
    else
      match verifyAnonymousToken kit (String.mk (h.data.drop 7)) secret nowMs with
      | .error _ => .error "Invalid or expired token"
      | .ok payload => .ok payload

/-- `handleExternalApiRequest(request, env)`: returns the HTTP status of
the response and the environment after any KV writes.  Order of the
source: method check (405), authentication (401), rate limit (429,
with its internal KV writes), body parse (400), downstream call
(its status, or 503). -/
def handleExternalApiRequest (kit : CodecKit) (req : Request)
    (env : WorkerEnv) (nowMs : Int) : Int × WorkerEnv :=
  if req.method ≠ "POST" then (405, env)
  else
    match authenticateUser kit req env.jwtSecret nowMs with
    | .error _ => (401, env)
    | .ok _ =>
      let res := checkRateLimit env nowMs
      if !res.1.allowed then (429, res.2)
      else if !req.jsonOk then (400, res.2)
      else
        match req.downstream with
        | .error _ => (503, res.2)
        | .ok status => (status, res.2)

/-- `handleTokenRequest(request, env)`: non-POST is 405; otherwise the
worker generates an id, signs a token and initializes the stats record
(`issueOk` stands for the id/token generation not throwing; a throw is
the 500 branch). -/
def handleTokenRequest (req : Request) (env : WorkerEnv) (issueOk : Bool)
    (nowMs : Int) : Int × WorkerEnv :=
  if req.method ≠ "POST" then (405, env)
  else if issueOk then (200, initUserStatsOp env nowMs)
  else (500, env)

/-- The worker's `fetch` handler: CORS preflight short-circuits every
OPTIONS request to 200 before any routing; then the two API paths, then
404. -/
def workerFetch (kit : CodecKit) (req : Request) (env : WorkerEnv)
    (issueOk : Bool) (nowMs : Int) : Int × WorkerEnv :=
  if req.method = "OPTIONS" then (200, env)
  else if req.path = "/api/external-service" then
    handleExternalApiRequest kit req env nowMs
  else if req.path = "/api/token" then
    handleTokenRequest req env issueOk nowMs
  else (404, env)

/-! ## Concrete instances used to witness the theorems below -/

/-- A degenerate but legitimate `CodecKit` whose payload codec always
yields `p` and whose signature check always passes; used to instantiate
hypotheses at concrete inputs. -/
def constKit (p : JWTPayload) : CodecKit :=
  { encHeader := "H"
    encodePayload := fun _ => "P"
    decodePayload := fun _ => some p
    hmacSign := fun _ _ => "S"
    hmacVerify := fun _ _ _ => true }

/-- A kit that rejects every signature; used where a failing path must be
exercised concretely. -/
def rejectKit : CodecKit :=
  { encHeader := "H"
    encodePayload := fun _ => "P"
    decodePayload := fun _ => none
    hmacSign := fun _ _ => "S"
    hmacVerify := fun _ _ _ => false }

/-- A healthy environment with empty stores. -/
def baseEnv : WorkerEnv :=
  { jwtSecret := "sec", rateStore := none, rateReadOk := true,
    rateWriteOk := true, statsStore := none, statsOk := true }

/-- A POST request with a well-shaped bearer token whose body fails to
parse. -/
def bReq : Request :=
  { method := "POST", path := "/api/external-service",
    authHeader := some "Bearer H.P.S", jsonOk := false,
    downstream := .error () }

/-- The btoa/WebCrypto facts the source relies on, stated for one payload
and secret: base64 segments are nonempty and never contain `'.'`,
`JSON.parse∘atob` inverts `btoa∘JSON.stringify`, and
`crypto.subtle.verify` accepts what `crypto.subtle.sign` produced. -/
structure KitFacts (kit : CodecKit) (payload : JWTPayload) (secret : String) : Prop where
  header_ne : kit.encHeader ≠ ""
  header_dotFree : dotFree kit.encHeader
  payload_ne : kit.encodePayload payload ≠ ""
  payload_dotFree : dotFree (kit.encodePayload payload)
  sig_ne : kit.hmacSign secret (kit.encHeader ++ "." ++ kit.encodePayload payload) ≠ ""
  sig_dotFree :
    dotFree (kit.hmacSign secret (kit.encHeader ++ "." ++ kit.encodePayload payload))
  decode_encode : kit.decodePayload (kit.encodePayload payload) = some payload
  verify_sign :
    kit.hmacVerify secret (kit.encHeader ++ "." ++ kit.encodePayload payload)
      (kit.hmacSign secret (kit.encHeader ++ "." ++ kit.encodePayload payload)) = true

/-- First-occurrence lookup in a `dailyRequests` object,
`stats.dailyRequests[d] || 0`. -/
def dGet : List (Int × Nat) → Int → Nat
  | [], _ => 0
  | (k, v) :: rest, d => if k = d then v else dGet rest d

/-- `Object.keys(stats.dailyRequests)`. -/
def dKeys (m : List (Int × Nat)) : List Int := m.map Prod.fst

/-- Sum of all daily counters. -/
def sumVals (m : List (Int × Nat)) : Nat := (m.map Prod.snd).sum

/-- Iterate the usage update over a list of admit times (each admitted
request runs `updateUserStats` once). -/
def runUsage (s : Option UserStats) (ts : List Int) : Option UserStats :=
  ts.foldl (fun acc t => some (updateUserStats acc t)) s

/-! ## Lemmas about the split model -/

theorem strMk_data (s : String) : String.mk s.data = s := rfl

theorem data_append (a b : String) : (a ++ b).data = a.data ++ b.data :=
  String.data_append a b

theorem splitCons_not_dot (c : Char) (hc : c ≠ '.') (h : List Char)
    (t : List (List Char)) : splitCons c (h :: t) = (c :: h) :: t := by
  simp [splitCons, hc]

theorem jsSplitDot_no_dot (s : List Char) (hs : '.' ∉ s) :
    jsSplitDot s = [s] := by
  induction s with
  | nil => rfl
  | cons c rest ih =>
    have hc : c ≠ '.' := fun h => hs (h ▸ List.mem_cons_self c rest)
    have hrest : '.' ∉ rest := fun h => hs (List.mem_cons_of_mem c h)
    show splitCons c (jsSplitDot rest) = [c :: rest]
    rw [ih hrest, splitCons_not_dot c hc]

theorem jsSplitDot_append_dot (a b : List Char) (ha : '.' ∉ a) :
    jsSplitDot (a ++ '.' :: b) = a :: jsSplitDot b := by
  induction a with
  | nil =>
    show splitCons '.' (jsSplitDot b) = [] :: jsSplitDot b
    simp [splitCons]
  | cons c rest ih =>
    have hc : c ≠ '.' := fun h => ha (h ▸ List.mem_cons_self c rest)
    have hrest : '.' ∉ rest := fun h => ha (List.mem_cons_of_mem c h)
    show splitCons c (jsSplitDot (rest ++ '.' :: b)) = (c :: rest) :: jsSplitDot b
    rw [ih hrest, splitCons_not_dot c hc]

theorem data_eq_nil_iff (s : String) : s.data = [] ↔ s = "" := by
  constructor
  · intro h
    have : String.mk s.data = String.mk [] := by rw [h]
    exact this
  · intro h; rw [h]

/-- The split of a well-formed three-segment token. -/
theorem tokenParts_of_three (A B C : String)
    (hA : dotFree A) (hB : dotFree B) (hC : dotFree C)
    (hA0 : A ≠ "") (hB0 : B ≠ "") (hC0 : C ≠ "") :
    tokenParts (A ++ "." ++ B ++ "." ++ C) = some (A.data, B.data, C.data) := by
  have hdata : (A ++ "." ++ B ++ "." ++ C).data
      = A.data ++ '.' :: (B.data ++ '.' :: C.data) := by
    simp [data_append]
  have hsplit : jsSplitDot (A ++ "." ++ B ++ "." ++ C).data
      = [A.data, B.data, C.data] := by
    rw [hdata, jsSplitDot_append_dot A.data _ hA,
        jsSplitDot_append_dot B.data _ hB, jsSplitDot_no_dot C.data hC]
  unfold tokenParts
  rw [hsplit]
  have hA' : A.data ≠ [] := fun h => hA0 ((data_eq_nil_iff A).1 h)
  have hB' : B.data ≠ [] := fun h => hB0 ((data_eq_nil_iff B).1 h)
  have hC' : C.data ≠ [] := fun h => hC0 ((data_eq_nil_iff C).1 h)
  simp [hA', hB', hC']

/-- Evaluation of `verifyJWT` on a well-formed token with a good
signature. -/
theorem verifyJWT_of_three (kit : CodecKit) (A B C secret : String)
    (nowMs : Int)
    (hA : dotFree A) (hB : dotFree B) (hC : dotFree C)
    (hA0 : A ≠ "") (hB0 : B ≠ "") (hC0 : C ≠ "")
    (hsig : kit.hmacVerify secret (A ++ "." ++ B) C = true) :
    verifyJWT kit (A ++ "." ++ B ++ "." ++ C) secret nowMs
      = match kit.decodePayload B with
        | none => .error .decodeFailed
        | some payload =>
          if expTruthy payload.exp ∧ payload.exp.getD 0 * 1000 < nowMs then
            .error .expired
          else
            .ok payload := by
  unfold verifyJWT
  rw [tokenParts_of_three A B C hA hB hC hA0 hB0 hC0]
  simp only [strMk_data, hsig, if_true]

/-! ## C1: credential round-trip -/

/-- C1: for every identity `id`, secret, issue time `now` and lifetime
`ttl` (seconds), and every verification instant `nowMs'` with
`nowMs' / 1000 < now + ttl`, verifying the token produced by
`signJWT` of `{userId: id, iat: now, exp: now+ttl, type: 'anonymous'}`
under the same secret succeeds and returns a payload whose `userId` is
the original `id`. -/
theorem credential_roundtrip (kit : CodecKit) (id secret : String)
    (now ttl nowMs' : Int)
    (hkit : KitFacts kit (anonPayload id now ttl) secret)
    (hnow : nowMs' < (now + ttl) * 1000) :
    ∃ payload,
      verifyAnonymousToken kit (signJWT kit (anonPayload id now ttl) secret)
          secret nowMs' = .ok payload
        ∧ payload.userId = id := by
  refine ⟨anonPayload id now ttl, ?_, rfl⟩
  have htok : signJWT kit (anonPayload id now ttl) secret
      = kit.encHeader ++ "." ++ kit.encodePayload (anonPayload id now ttl)
        ++ "." ++ kit.hmacSign secret
            (kit.encHeader ++ "." ++ kit.encodePayload (anonPayload id now ttl)) := rfl
  have hjwt := verifyJWT_of_three kit kit.encHeader
    (kit.encodePayload (anonPayload id now ttl))
    (kit.hmacSign secret
      (kit.encHeader ++ "." ++ kit.encodePayload (anonPayload id now ttl)))
    secret nowMs'
    hkit.header_dotFree hkit.payload_dotFree hkit.sig_dotFree
    hkit.header_ne hkit.payload_ne hkit.sig_ne hkit.verify_sign
  have hcond : ¬(expTruthy (some (now + ttl)) = true
      ∧ (now + ttl) * 1000 < nowMs') :=
    fun hc => lt_asymm hnow hc.2
  unfold verifyAnonymousToken
  rw [htok, hjwt, hkit.decode_encode]
  simp only [anonPayload, Option.getD_some, if_neg hcond]
  simp

/-- C1 witness: concrete round-trip instance. -/
theorem credential_roundtrip_witness :
    ∃ payload,
      verifyAnonymousToken (constKit (anonPayload "u" 5 7))
          (signJWT (constKit (anonPayload "u" 5 7)) (anonPayload "u" 5 7) "sec")
          "sec" 11999 = .ok payload
        ∧ payload.userId = "u" :=
  credential_roundtrip (constKit (anonPayload "u" 5 7)) "u" "sec" 5 7 11999
    ⟨by decide, by decide, by decide, by decide, by decide, by decide,
     by decide, by decide⟩
    (by decide)

/-! ## C9: falsy `exp` skips the expiry check -/

/-- C9: a well-formed token whose signature verifies, whose payload is of
type `'anonymous'`, and whose `exp` is absent or `0` (falsy) verifies
successfully at every instant `nowMs` — the expiry check
`payload.exp && payload.exp < Date.now()/1000` is skipped, so such a
token never fails as expired. -/
theorem falsy_exp_never_expires (kit : CodecKit) (A B C secret : String)
    (nowMs : Int) (payload : JWTPayload)
    (hA : dotFree A) (hB : dotFree B) (hC : dotFree C)
    (hA0 : A ≠ "") (hB0 : B ≠ "") (hC0 : C ≠ "")
    (hsig : kit.hmacVerify secret (A ++ "." ++ B) C = true)
    (hdec : kit.decodePayload B = some payload)
    (hexp : payload.exp = none ∨ payload.exp = some 0)
    (htype : payload.type = "anonymous") :
    verifyAnonymousToken kit (A ++ "." ++ B ++ "." ++ C) secret nowMs
      = .ok payload := by
  have hjwt := verifyJWT_of_three kit A B C secret nowMs hA hB hC hA0 hB0 hC0 hsig
  have hcond : ¬(expTruthy payload.exp = true
      ∧ payload.exp.getD 0 * 1000 < nowMs) := by
    rcases hexp with h | h <;> simp [h, expTruthy]
  simp only [hdec] at hjwt
  unfold verifyAnonymousToken
  rw [hjwt, if_neg hcond]
  simp [htype]

/-- C9 witness: a token with `exp` absent verifies at a far-future
instant. -/
theorem falsy_exp_never_expires_witness :
    verifyAnonymousToken
        (constKit { userId := "u", iat := 0, exp := none, type := "anonymous" })
        ("H" ++ "." ++ "P" ++ "." ++ "S") "sec" 999999999999999
      = .ok { userId := "u", iat := 0, exp := none, type := "anonymous" } :=
  falsy_exp_never_expires
    (constKit { userId := "u", iat := 0, exp := none, type := "anonymous" })
    "H" "P" "S" "sec" 999999999999999
    { userId := "u", iat := 0, exp := none, type := "anonymous" }
    (by decide) (by decide) (by decide) (by decide) (by decide) (by decide)
    (by decide) (by decide) (Or.inl rfl) rfl

/-! ## C4: the malformed-token check -/

/-- C4 counterexample: `"H.P.S.x"` splits into four segments, yet
verification does not fail as malformed — the destructuring drops the
extra segment and the token verifies successfully. -/
theorem extra_segment_verifies :
    (jsSplitDot "H.P.S.x".data).length = 4
      ∧ verifyJWT (constKit { userId := "u", iat := 0, exp := none, type := "anonymous" })
          "H.P.S.x" "sec" 0
          = .ok { userId := "u", iat := 0, exp := none, type := "anonymous" } := by
  decide

theorem verifyJWT_malformed_iff (kit : CodecKit) (token secret : String)
    (nowMs : Int) :
    verifyJWT kit token secret nowMs = .error .malformed
      ↔ tokenParts token = none := by
  unfold verifyJWT
  cases h : tokenParts token with
  | none => simp
  | some abc =>
    obtain ⟨a, b, c⟩ := abc
    simp only [reduceCtorEq, iff_false]
    intro hbad
    split at hbad
    · split at hbad
      · simp at hbad
      · split at hbad <;> simp at hbad
    · simp at hbad

theorem tokenParts_none_iff (token : String) :
    tokenParts token = none
      ↔ ∀ a b c rest, jsSplitDot token.data = a :: b :: c :: rest →
          a = [] ∨ b = [] ∨ c = [] := by
  unfold tokenParts
  cases h : jsSplitDot token.data with
  | nil => simp
  | cons a tail =>
    cases tail with
    | nil => simp
    | cons b tail2 =>
      cases tail2 with
      | nil => simp
      | cons c rest =>
        by_cases hshape : a = [] ∨ b = [] ∨ c = []
        · simp only [if_pos hshape, true_iff]
          intro a' b' c' rest' heq
          cases heq
          exact hshape
        · simp only [if_neg hshape, reduceCtorEq, false_iff, not_forall]
          exact ⟨a, b, c, rest, rfl, hshape⟩

/-- C4 amended: verification fails with the malformed-token error iff the
`'.'`-split of the token yields fewer than three segments or one of the
first three segments is empty; segments beyond the third are ignored
rather than rejected. -/
theorem malformed_iff_bad_shape (kit : CodecKit) (token secret : String)
    (nowMs : Int) :
    verifyJWT kit token secret nowMs = .error .malformed
      ↔ ∀ a b c rest, jsSplitDot token.data = a :: b :: c :: rest →
          a = [] ∨ b = [] ∨ c = [] :=
  (verifyJWT_malformed_iff kit token secret nowMs).trans
    (tokenParts_none_iff token)

/-! ## Rate limiter lemmas -/

theorem foldl_min_mem (xs : List Int) : ∀ x : Int,
    xs.foldl min x = x ∨ xs.foldl min x ∈ xs := by
  induction xs with
  | nil => intro x; exact Or.inl rfl
  | cons y ys ih =>
    intro x
    rcases ih (min x y) with h | h
    · rcases min_choice x y with hm | hm
      · exact Or.inl (by rw [List.foldl_cons, h, hm])
      · exact Or.inr (by rw [List.foldl_cons, h, hm]; exact List.mem_cons_self y ys)
    · exact Or.inr (List.mem_cons_of_mem y h)

theorem listMin_mem (l : List Int) (hl : l ≠ []) : listMin l ∈ l := by
  cases l with
  | nil => exact absurd rfl hl
  | cons x xs =>
    show xs.foldl min x ∈ x :: xs
    rcases foldl_min_mem xs x with h | h
    · rw [h]; exact List.mem_cons_self x xs
    · exact List.mem_cons_of_mem x h

theorem keptRequests_lt (stored : Option (List Int)) (now : Int) :
    ∀ t ∈ keptRequests stored now, now - t < windowMs := by
  intro t ht
  unfold keptRequests at ht
  have h := (List.mem_filter.mp ht).2
  simpa using h

theorem jsCeilDiv_pos (a : Int) (ha : 1 ≤ a) : 1 ≤ jsCeilDiv a 1000 := by
  unfold jsCeilDiv
  omega

theorem updateUserStatsOp_rateStore (e : WorkerEnv) (n : Int) :
    (updateUserStatsOp e n).rateStore = e.rateStore := by
  unfold updateUserStatsOp; split <;> rfl

theorem updateUserStatsOp_rateReadOk (e : WorkerEnv) (n : Int) :
    (updateUserStatsOp e n).rateReadOk = e.rateReadOk := by
  unfold updateUserStatsOp; split <;> rfl

theorem updateUserStatsOp_rateWriteOk (e : WorkerEnv) (n : Int) :
    (updateUserStatsOp e n).rateWriteOk = e.rateWriteOk := by
  unfold updateUserStatsOp; split <;> rfl

/-! ## C3: the retry-after value on denial -/

/-- C3: whenever `checkRateLimit` denies (the stored timestamps surviving
the window filter number at least `maxRequests`), the result carries
`retryAfter = ceil((min(remaining) + windowMs - now) / 1000)` over exact
millisecond integers, and since every remaining timestamp `t` has
`now - t < windowMs` this value is at least 1. -/
theorem deny_retryAfter_formula (env : WorkerEnv) (now : Int)
    (hread : env.rateReadOk = true)
    (hfull : (keptRequests env.rateStore now).length ≥ maxRequests) :
    checkRateLimit env now
      = ({ allowed := false
           retryAfter := some (jsCeilDiv
             (listMin (keptRequests env.rateStore now) + windowMs - now) 1000) },
         env)
      ∧ 1 ≤ jsCeilDiv
          (listMin (keptRequests env.rateStore now) + windowMs - now) 1000 := by
  constructor
  · unfold checkRateLimit
    simp [hread, hfull]
  · have hne : keptRequests env.rateStore now ≠ [] := by
      intro h
      rw [h] at hfull
      simp [maxRequests] at hfull
    have hmem := listMin_mem (keptRequests env.rateStore now) hne
    have hlt := keptRequests_lt env.rateStore now _ hmem
    exact jsCeilDiv_pos _ (by omega)

/-- C3 witness: 100 timestamps at 0, checked at time 5. -/
theorem deny_retryAfter_formula_witness :
    checkRateLimit { baseEnv with rateStore := some (List.replicate 100 0) } 5
      = ({ allowed := false
           retryAfter := some (jsCeilDiv
             (listMin (keptRequests (some (List.replicate 100 0)) 5)
               + windowMs - 5) 1000) },
         { baseEnv with rateStore := some (List.replicate 100 0) })
      ∧ 1 ≤ jsCeilDiv
          (listMin (keptRequests (some (List.replicate 100 0)) 5)
            + windowMs - 5) 1000 :=
  deny_retryAfter_formula
    { baseEnv with rateStore := some (List.replicate 100 0) } 5
    rfl (by decide)

/-! ## C7: fail-open on store errors -/

/-- C7: if the KV read throws, or the KV write is reached (a free slot
exists) and throws, `checkRateLimit` returns `allowed = true` instead of
propagating the error or denying. -/
theorem rate_limit_fails_open (env : WorkerEnv) (now : Int)
    (h : env.rateReadOk = false
       ∨ (env.rateWriteOk = false
          ∧ (keptRequests env.rateStore now).length < maxRequests)) :
    (checkRateLimit env now).1.allowed = true := by
  unfold checkRateLimit
  rcases h with h | ⟨hw, hlen⟩
  · simp [h]
  · cases hr : env.rateReadOk with
    | false => simp
    | true => simp [Nat.not_le.mpr hlen, hw]

/-- C7 witness: a failing read fails open. -/
theorem rate_limit_fails_open_witness :
    (checkRateLimit { baseEnv with rateReadOk := false } 0).1.allowed = true :=
  rate_limit_fails_open { baseEnv with rateReadOk := false } 0 (Or.inl rfl)

/-! ## C2: the 100-admit / deny / window-reset cycle -/

/-- Invariant of a run of calls that all fall inside one another's window
while a free slot remains: every call is admitted and the store
accumulates the call times in order, with the KV health flags
untouched. -/
theorem runCalls_admits (ts : List Int) : ∀ (env : WorkerEnv) (s : List Int),
    env.rateReadOk = true → env.rateWriteOk = true →
    env.rateStore.getD [] = s →
    s.length + ts.length ≤ maxRequests →
    (∀ x ∈ s, ∀ t ∈ ts, t - x < windowMs) →
    (∀ t ∈ ts, ∀ u ∈ ts, u - t < windowMs) →
    (∀ r ∈ (runCalls env ts).1, r.allowed = true)
      ∧ (runCalls env ts).2.rateStore.getD [] = s ++ ts
      ∧ (runCalls env ts).2.rateReadOk = true
      ∧ (runCalls env ts).2.rateWriteOk = true := by
  induction ts with
  | nil =>
    intro env s hr hw hs _ _ _
    exact ⟨by simp [runCalls], by simpa [runCalls] using hs, hr, hw⟩
  | cons t ts ih =>
    intro env s hr hw hs hlen hst hts
    have hkept : keptRequests env.rateStore t = s := by
      unfold keptRequests
      rw [hs]
      apply List.filter_eq_self.mpr
      intro x hx
      exact decide_eq_true (hst x hx t (List.mem_cons_self t ts))
    have hlt : s.length < maxRequests := by
      simp only [List.length_cons] at hlen; omega
    have hstep : checkRateLimit env t
        = ({ allowed := true, retryAfter := none },
           updateUserStatsOp { env with rateStore := some (s ++ [t]) } t) := by
      unfold checkRateLimit
      rw [hkept]
      simp [hr, hw, Nat.not_le.mpr hlt]
    obtain ⟨ha, hstore2, hr2, hw2⟩ :=
      ih (updateUserStatsOp { env with rateStore := some (s ++ [t]) } t)
        (s ++ [t])
        (by rw [updateUserStatsOp_rateReadOk]; exact hr)
        (by rw [updateUserStatsOp_rateWriteOk]; exact hw)
        (by rw [updateUserStatsOp_rateStore]; rfl)
        (by simp only [List.length_append, List.length_cons,
              List.length_nil] at hlen ⊢; omega)
        (by
          intro x hx u hu
          rcases List.mem_append.mp hx with hx | hx
          · exact hst x hx u (List.mem_cons_of_mem t hu)
          · rw [List.mem_singleton.mp hx]
            exact hts t (List.mem_cons_self t ts) u (List.mem_cons_of_mem t hu))
        (fun t1 h1 u h2 =>
          hts t1 (List.mem_cons_of_mem t h1) u (List.mem_cons_of_mem t h2))
    refine ⟨?_, ?_, ?_, ?_⟩
    · intro r hmem
      rw [show runCalls env (t :: ts)
          = ((checkRateLimit env t).1
              :: (runCalls (checkRateLimit env t).2 ts).1,
             (runCalls (checkRateLimit env t).2 ts).2) from rfl, hstep] at hmem
      rcases List.mem_cons.mp hmem with h | h
      · rw [h]
      · exact ha r h
    · rw [show (runCalls env (t :: ts)).2
          = (runCalls (checkRateLimit env t).2 ts).2 from rfl, hstep]
      rw [hstore2, List.append_assoc, List.singleton_append]
    · rw [show (runCalls env (t :: ts)).2
          = (runCalls (checkRateLimit env t).2 ts).2 from rfl, hstep]
      exact hr2
    · rw [show (runCalls env (t :: ts)).2
          = (runCalls (checkRateLimit env t).2 ts).2 from rfl, hstep]
      exact hw2

/-- C2: with `maxRequests = 100` and `windowMs = 3600000`, starting from
an absent rate-limit record, 100 calls at times inside one window are all
admitted; a 101st call inside the window is denied with a positive
`retryAfter`; and a later call at a time past the window of every stored
timestamp is admitted again. -/
theorem rate_limiter_window_cycle (env : WorkerEnv) (ts : List Int)
    (T t101 t102 : Int)
    (hread : env.rateReadOk = true) (hwrite : env.rateWriteOk = true)
    (hstore : env.rateStore = none)
    (hlen : ts.length = 100)
    (hin : ∀ t ∈ ts, T ≤ t ∧ t < T + windowMs)
    (h101 : T ≤ t101 ∧ t101 < T + windowMs)
    (h102 : ∀ t ∈ ts, windowMs ≤ t102 - t) :
    (∀ r ∈ (runCalls env ts).1, r.allowed = true)
      ∧ (checkRateLimit (runCalls env ts).2 t101).1.allowed = false
      ∧ (∃ ra, (checkRateLimit (runCalls env ts).2 t101).1.retryAfter = some ra
          ∧ 1 ≤ ra)
      ∧ (checkRateLimit (checkRateLimit (runCalls env ts).2 t101).2 t102).1.allowed
          = true := by
  obtain ⟨hall, hstore1, hr1, hw1⟩ :=
    runCalls_admits ts env [] hread hwrite (by rw [hstore]; rfl)
      (by simp [hlen, maxRequests])
      (by intro x hx; exact absurd hx (List.not_mem_nil x))
      (by
        intro t ht u hu
        have h1 := hin t ht
        have h2 := hin u hu
        unfold windowMs at h1 h2 ⊢
        omega)
  simp only [List.nil_append] at hstore1
  set env1 := (runCalls env ts).2 with henv1
  have hkept101 : keptRequests env1.rateStore t101 = ts := by
    unfold keptRequests
    rw [hstore1]
    apply List.filter_eq_self.mpr
    intro x hx
    have h1 := hin x hx
    have h2 := h101
    exact decide_eq_true (by unfold windowMs at h1 h2 ⊢; omega)
  have hfull : (keptRequests env1.rateStore t101).length ≥ maxRequests := by
    rw [hkept101, hlen]
    decide
  have hdeny : checkRateLimit env1 t101
      = ({ allowed := false
           retryAfter := some (jsCeilDiv
             (listMin (keptRequests env1.rateStore t101) + windowMs - t101)
             1000) },
         env1) := by
    unfold checkRateLimit
    simp [hr1, hfull]
  have htsne : ts ≠ [] := by
    intro h; rw [h] at hlen; simp at hlen
  have hpos : 1 ≤ jsCeilDiv
      (listMin (keptRequests env1.rateStore t101) + windowMs - t101) 1000 := by
    have hmem := listMin_mem (keptRequests env1.rateStore t101)
      (by rw [hkept101]; exact htsne)
    rw [hkept101] at hmem
    have h1 := hin _ hmem
    have h2 := h101
    apply jsCeilDiv_pos
    rw [hkept101]
    unfold windowMs at h1 h2 ⊢
    omega
  refine ⟨hall, by rw [hdeny], ⟨_, by rw [hdeny], hpos⟩, ?_⟩
  rw [hdeny]
  have hkept102 : keptRequests env1.rateStore t102 = [] := by
    unfold keptRequests
    rw [hstore1]
    apply List.filter_eq_nil_iff.mpr
    intro x hx
    have h1 := h102 x hx
    simp only [decide_eq_true_eq]
    omega
  unfold checkRateLimit
  rw [hkept102]
  simp [hr1, hw1, maxRequests]

/-- C2 witness: 100 calls at time 0 from an empty store, the 101st at
time 0 denied, a later call at time 3600000 admitted. -/
theorem rate_limiter_window_cycle_witness :
    (∀ r ∈ (runCalls baseEnv (List.replicate 100 0)).1, r.allowed = true)
      ∧ (checkRateLimit (runCalls baseEnv (List.replicate 100 0)).2 0).1.allowed
          = false
      ∧ (∃ ra,
          (checkRateLimit (runCalls baseEnv (List.replicate 100 0)).2 0).1.retryAfter
            = some ra ∧ 1 ≤ ra)
      ∧ (checkRateLimit
          (checkRateLimit (runCalls baseEnv (List.replicate 100 0)).2 0).2
          3600000).1.allowed = true :=
  rate_limiter_window_cycle baseEnv (List.replicate 100 0) 0 0 3600000
    rfl rfl rfl (by decide)
    (by decide)
    (by decide)
    (by decide)

/-! ## Usage tracker lemmas -/

theorem bumpDaily_get_self (m : List (Int × Nat)) (d : Int) :
    dGet (bumpDaily m d) d = dGet m d + 1 := by
  induction m with
  | nil => simp [bumpDaily, dGet]
  | cons kv rest ih =>
    obtain ⟨k, v⟩ := kv
    by_cases hk : k = d
    · simp [bumpDaily, dGet, hk]
    · simp [bumpDaily, dGet, hk, ih]

theorem bumpDaily_sum (m : List (Int × Nat)) (d : Int) :
    sumVals (bumpDaily m d) = sumVals m + 1 := by
  induction m with
  | nil => simp [bumpDaily, sumVals]
  | cons kv rest ih =>
    obtain ⟨k, v⟩ := kv
    by_cases hk : k = d
    · simp [bumpDaily, sumVals, hk]
      omega
    · simp only [bumpDaily, if_neg hk, sumVals, List.map_cons, List.sum_cons] at ih ⊢
      omega

theorem bumpDaily_keys_mem (m : List (Int × Nat)) (d x : Int) :
    x ∈ dKeys (bumpDaily m d) ↔ x ∈ dKeys m ∨ x = d := by
  induction m with
  | nil => simp [bumpDaily, dKeys]
  | cons kv rest ih =>
    obtain ⟨k, v⟩ := kv
    by_cases hk : k = d
    · subst hk
      simp [bumpDaily, dKeys]
      tauto
    · simp only [bumpDaily, if_neg hk, dKeys, List.map_cons, List.mem_cons] at ih ⊢
      rw [ih]
      tauto

theorem bumpDaily_keys_nodup (m : List (Int × Nat)) (d : Int)
    (h : (dKeys m).Nodup) : (dKeys (bumpDaily m d)).Nodup := by
  induction m with
  | nil => simp [bumpDaily, dKeys]
  | cons kv rest ih =>
    obtain ⟨k, v⟩ := kv
    simp only [dKeys, List.map_cons, List.nodup_cons] at h
    by_cases hk : k = d
    · simp only [bumpDaily, if_pos hk, dKeys, List.map_cons, List.nodup_cons]
      exact h
    · simp only [bumpDaily, if_neg hk, dKeys, List.map_cons, List.nodup_cons]
      refine ⟨?_, ih h.2⟩
      intro hmem
      rcases (bumpDaily_keys_mem rest d k).mp hmem with hmem | hmem
      · exact h.1 hmem
      · exact hk hmem

theorem pruneDaily_eq_self (m : List (Int × Nat)) (now : Int)
    (h : ∀ kv ∈ m, now - 30 * msPerDay ≤ kv.1 * msPerDay) :
    pruneDaily m now = m := by
  apply List.filter_eq_self.mpr
  intro kv hkv
  exact decide_eq_true (h kv hkv)

theorem pruneDaily_mem_bound (m : List (Int × Nat)) (now : Int) :
    ∀ kv ∈ pruneDaily m now, now - 30 * msPerDay ≤ kv.1 * msPerDay := by
  intro kv hkv
  have h := (List.mem_filter.mp hkv).2
  simpa using h

theorem dGet_filter (p : Int × Nat → Bool) (m : List (Int × Nat)) (d : Int)
    (hp : ∀ kv ∈ m, kv.1 = d → p kv = true) :
    dGet (m.filter p) d = dGet m d := by
  induction m with
  | nil => rfl
  | cons kv rest ih =>
    obtain ⟨k, v⟩ := kv
    by_cases hk : k = d
    · have hkeep : p (k, v) = true :=
        hp (k, v) (List.mem_cons_self _ _) hk
      rw [List.filter_cons_of_pos hkeep]
      simp [dGet, hk]
    · have ih2 := ih fun kv hkv hkd => hp kv (List.mem_cons_of_mem _ hkv) hkd
      cases hkeep : p (k, v) with
      | true =>
        rw [List.filter_cons_of_pos hkeep]
        simp [dGet, hk, ih2]
      | false =>
        rw [List.filter_cons_of_neg (by simp [hkeep])]
        simp [dGet, hk] at ih2 ⊢
        exact ih2

/-- Today's bucket key is never pruned by the update that created it:
the UTC midnight of `now`'s own date is within the 30-day horizon. -/
theorem dayOf_within_horizon (now : Int) :
    now - 30 * msPerDay ≤ dayOf now * msPerDay := by
  unfold dayOf msPerDay
  omega

/-- Invariant of a run of usage updates whose dates all stay within the
retention horizon of every call time: totals and bucket sums accumulate
one per call, the key set accumulates exactly the call dates, and key
uniqueness is preserved. -/
theorem runUsage_inv (ts : List Int) : ∀ st : UserStats,
    (∀ k ∈ dKeys st.dailyRequests, ∀ u ∈ ts,
        u - 30 * msPerDay ≤ k * msPerDay) →
    (∀ t ∈ ts, ∀ u ∈ ts, u - 30 * msPerDay ≤ dayOf t * msPerDay) →
    ∃ st2, runUsage (some st) ts = some st2
      ∧ st2.totalRequests = st.totalRequests + ts.length
      ∧ sumVals st2.dailyRequests = sumVals st.dailyRequests + ts.length
      ∧ (∀ k, k ∈ dKeys st2.dailyRequests
          ↔ k ∈ dKeys st.dailyRequests ∨ ∃ t ∈ ts, dayOf t = k)
      ∧ ((dKeys st.dailyRequests).Nodup → (dKeys st2.dailyRequests).Nodup) := by
  induction ts with
  | nil =>
    intro st _ _
    exact ⟨st, rfl, by simp, by simp, by simp, fun h => h⟩
  | cons t ts ih =>
    intro st h1 h2
    have hnoprune : pruneDaily (bumpDaily st.dailyRequests (dayOf t)) t
        = bumpDaily st.dailyRequests (dayOf t) := by
      apply pruneDaily_eq_self
      intro kv hkv
      rcases (bumpDaily_keys_mem st.dailyRequests (dayOf t) kv.1).mp
          (List.mem_map_of_mem Prod.fst hkv) with hk | hk
      · exact h1 kv.1 hk t (List.mem_cons_self t ts)
      · rw [hk]; exact dayOf_within_horizon t
    have hstep : updateUserStats (some st) t
        = { createdAt := st.createdAt, totalRequests := st.totalRequests + 1,
            lastRequestAt := some t,
            dailyRequests := bumpDaily st.dailyRequests (dayOf t) } := by
      unfold updateUserStats
      simp only [Option.getD_some, hnoprune]
    obtain ⟨st2, hrun, htot, hsum, hkeys, hnd⟩ := ih
      { createdAt := st.createdAt, totalRequests := st.totalRequests + 1,
        lastRequestAt := some t,
        dailyRequests := bumpDaily st.dailyRequests (dayOf t) }
      (by
        intro k hk u hu
        rcases (bumpDaily_keys_mem st.dailyRequests (dayOf t) k).mp hk with h | h
        · exact h1 k h u (List.mem_cons_of_mem t hu)
        · rw [h]
          exact h2 t (List.mem_cons_self t ts) u (List.mem_cons_of_mem t hu))
      (fun a ha u hu =>
        h2 a (List.mem_cons_of_mem t ha) u (List.mem_cons_of_mem t hu))
    refine ⟨st2, ?_, ?_, ?_, ?_, ?_⟩
    · show runUsage (some (updateUserStats (some st) t)) ts = some st2
      rw [hstep]; exact hrun
    · rw [htot]; simp only [List.length_cons]; omega
    · rw [hsum, bumpDaily_sum]; simp only [List.length_cons]; omega
    · intro k
      rw [hkeys k]
      constructor
      · rintro (h | h)
        · rcases (bumpDaily_keys_mem _ _ k).mp h with hm | hm
          · exact Or.inl hm
          · exact Or.inr ⟨t, List.mem_cons_self t ts, hm.symm⟩
        · obtain ⟨u, hu, hd⟩ := h
          exact Or.inr ⟨u, List.mem_cons_of_mem t hu, hd⟩
      · rintro (h | h)
        · exact Or.inl ((bumpDaily_keys_mem _ _ k).mpr (Or.inl h))
        · obtain ⟨u, hu, hd⟩ := h
          rcases List.mem_cons.mp hu with rfl | hu'
          · exact Or.inl ((bumpDaily_keys_mem _ _ k).mpr (Or.inr hd.symm))
          · exact Or.inr ⟨u, hu', hd⟩
    · intro hndst
      exact hnd (bumpDaily_keys_nodup _ _ hndst)

theorem length_eq_two_of_mem_iff (l : List Int) (A B : Int) (hAB : A ≠ B)
    (hnd : l.Nodup) (hmem : ∀ x, x ∈ l ↔ x = A ∨ x = B) : l.length = 2 := by
  have hfin : l.toFinset = {A, B} := by
    ext x
    simp [List.mem_toFinset, hmem x]
  have hcard := List.toFinset_card_of_nodup hnd
  rw [hfin] at hcard
  rw [← hcard, Finset.card_insert_of_not_mem (by simp [hAB]),
    Finset.card_singleton]

/-! ## C8: usage-statistics update -/

/-- C8: one `updateUserStats` call increments `totalRequests` by exactly
1, sets `lastRequestAt` to `now`, increments today's daily bucket by
exactly 1, and leaves no daily key whose date is older than 30 days
before `now`; and N admits spread over two distinct calendar dates (both
within the retention horizon of every call) starting from an absent
record produce exactly two `dailyRequests` entries summing to N with
`totalRequests = N`. -/
theorem usage_update_totals (existing : Option UserStats) (now : Int)
    (ts : List Int) (A B : Int)
    (hdays : ∀ t ∈ ts, dayOf t = A ∨ dayOf t = B)
    (hA : ∃ t ∈ ts, dayOf t = A) (hB : ∃ t ∈ ts, dayOf t = B)
    (hAB : A ≠ B)
    (hret : ∀ t ∈ ts, ∀ u ∈ ts, u - 30 * msPerDay ≤ dayOf t * msPerDay) :
    ((updateUserStats existing now).totalRequests
        = (existing.getD (emptyStats now)).totalRequests + 1
      ∧ (updateUserStats existing now).lastRequestAt = some now
      ∧ dGet (updateUserStats existing now).dailyRequests (dayOf now)
          = dGet (existing.getD (emptyStats now)).dailyRequests (dayOf now) + 1
      ∧ (∀ kv ∈ (updateUserStats existing now).dailyRequests,
          now - 30 * msPerDay ≤ kv.1 * msPerDay))
    ∧ ∃ st, runUsage none ts = some st
        ∧ st.totalRequests = ts.length
        ∧ st.dailyRequests.length = 2
        ∧ sumVals st.dailyRequests = ts.length := by
  constructor
  · refine ⟨rfl, rfl, ?_, ?_⟩
    · show dGet (pruneDaily (bumpDaily (existing.getD (emptyStats now)).dailyRequests
          (dayOf now)) now) (dayOf now) = _
      unfold pruneDaily
      rw [dGet_filter]
      · exact bumpDaily_get_self _ _
      · intro kv _ hkd
        rw [hkd]
        exact decide_eq_true (dayOf_within_horizon now)
    · exact pruneDaily_mem_bound _ now
  · cases ts with
    | nil =>
      obtain ⟨t, ht, _⟩ := hA
      exact absurd ht (List.not_mem_nil t)
    | cons t ts' =>
      have hp : pruneDaily [(dayOf t, 1)] t = [(dayOf t, 1)] :=
        pruneDaily_eq_self _ _ (by
          intro kv hkv
          rw [List.mem_singleton.mp hkv]
          exact dayOf_within_horizon t)
      have hfirst : updateUserStats none t
          = { createdAt := t, totalRequests := 1, lastRequestAt := some t,
              dailyRequests := [(dayOf t, 1)] } := by
        unfold updateUserStats
        simp [emptyStats, bumpDaily, hp]
      obtain ⟨st2, hrun, htot, hsum, hkeys, hnd⟩ := runUsage_inv ts'
        { createdAt := t, totalRequests := 1, lastRequestAt := some t,
          dailyRequests := [(dayOf t, 1)] }
        (by
          intro k hk u hu
          rw [show k = dayOf t by simpa [dKeys] using hk]
          exact hret t (List.mem_cons_self t ts') u (List.mem_cons_of_mem t hu))
        (fun a ha u hu =>
          hret a (List.mem_cons_of_mem t ha) u (List.mem_cons_of_mem t hu))
      refine ⟨st2, ?_, ?_, ?_, ?_⟩
      · show runUsage (some (updateUserStats none t)) ts' = some st2
        rw [hfirst]; exact hrun
      · rw [htot]; simp only [List.length_cons]; omega
      · have hmemiff : ∀ x, x ∈ dKeys st2.dailyRequests ↔ x = A ∨ x = B := by
          intro x
          rw [hkeys x]
          constructor
          · rintro (h | ⟨u, hu, hd⟩)
            · have := hdays t (List.mem_cons_self t ts')
              simp only [dKeys, List.map_cons, List.map_nil,
                List.mem_singleton] at h
              rw [h]
              exact this
            · rw [← hd]
              exact hdays u (List.mem_cons_of_mem t hu)
          · rintro (rfl | rfl)
            · obtain ⟨u, hu, hd⟩ := hA
              rcases List.mem_cons.mp hu with rfl | hu'
              · exact Or.inl (by simp [dKeys, hd])
              · exact Or.inr ⟨u, hu', hd⟩
            · obtain ⟨u, hu, hd⟩ := hB
              rcases List.mem_cons.mp hu with rfl | hu'
              · exact Or.inl (by simp [dKeys, hd])
              · exact Or.inr ⟨u, hu', hd⟩
        have hnd2 : (dKeys st2.dailyRequests).Nodup := hnd (by simp [dKeys])
        have hlen2 := length_eq_two_of_mem_iff _ A B hAB hnd2 hmemiff
        calc st2.dailyRequests.length
            = (dKeys st2.dailyRequests).length := (List.length_map _ _).symm
          _ = 2 := hlen2
      · rw [hsum]; simp only [sumVals, List.map_cons, List.map_nil,
          List.sum_cons, List.sum_nil, List.length_cons]
        omega

/-- C8 witness: two admits on consecutive days. -/
theorem usage_update_totals_witness :
    ((updateUserStats none 0).totalRequests
        = ((none : Option UserStats).getD (emptyStats 0)).totalRequests + 1
      ∧ (updateUserStats none 0).lastRequestAt = some 0
      ∧ dGet (updateUserStats none 0).dailyRequests (dayOf 0)
          = dGet ((none : Option UserStats).getD (emptyStats 0)).dailyRequests
              (dayOf 0) + 1
      ∧ (∀ kv ∈ (updateUserStats none 0).dailyRequests,
          0 - 30 * msPerDay ≤ kv.1 * msPerDay))
    ∧ ∃ st, runUsage none [0, 86400000] = some st
        ∧ st.totalRequests = ([0, 86400000] : List Int).length
        ∧ st.dailyRequests.length = 2
        ∧ sumVals st.dailyRequests = ([0, 86400000] : List Int).length :=
  usage_update_totals none 0 [0, 86400000] 0 1
    (by decide) (by decide) (by decide) (by decide) (by decide)

/-! ## C5: response to a malformed bearer token -/

/-- C5 counterexample: a POST to /api/external-service bearing the
badly-shaped token `abc` (no `.` separators) is answered with 401, not
with the claimed 400. -/
theorem malformed_bearer_not_400 :
    (handleExternalApiRequest (constKit (anonPayload "u" 0 1))
        { method := "POST", path := "/api/external-service",
          authHeader := some "Bearer abc", jsonOk := true,
          downstream := .ok 200 } baseEnv 0).1 = 401
    ∧ (handleExternalApiRequest (constKit (anonPayload "u" 0 1))
        { method := "POST", path := "/api/external-service",
          authHeader := some "Bearer abc", jsonOk := true,
          downstream := .ok 200 } baseEnv 0).1 ≠ 400 := by
  decide

/-- C5 amended: a POST to /api/external-service whose bearer token has a
bad shape (does not split into three non-empty segments) is answered with
HTTP 401 — the malformed token is caught by `authenticateUser` and
reported as `Invalid or expired token`, not routed to the 400
MalformedInput branch. -/
theorem bad_shape_token_401 (kit : CodecKit) (req : Request)
    (env : WorkerEnv) (nowMs : Int) (h : String)
    (hm : req.method = "POST")
    (hauth : req.authHeader = some h)
    (hbearer : List.isPrefixOf "Bearer ".data h.data = true)
    (hbad : tokenParts (String.mk (h.data.drop 7)) = none) :
    (handleExternalApiRequest kit req env nowMs).1 = 401 := by
  have hjwt : verifyJWT kit (String.mk (h.data.drop 7)) env.jwtSecret nowMs
      = .error .malformed := by
    unfold verifyJWT; rw [hbad]
  unfold handleExternalApiRequest authenticateUser verifyAnonymousToken
  rw [hauth]
  simp [hm, hbearer, hjwt]

/-- C5 witness: concrete malformed bearer token answered 401. -/
theorem bad_shape_token_401_witness :
    (handleExternalApiRequest (constKit (anonPayload "u" 0 1))
        { method := "POST", path := "/api/external-service",
          authHeader := some "Bearer x", jsonOk := true,
          downstream := .ok 200 } baseEnv 0).1 = 401 :=
  bad_shape_token_401 (constKit (anonPayload "u" 0 1))
    { method := "POST", path := "/api/external-service",
      authHeader := some "Bearer x", jsonOk := true, downstream := .ok 200 }
    baseEnv 0 "Bearer x" rfl rfl (by decide) (by decide)

/-! ## C6: non-POST on /api/token -/

/-- C6 counterexample: an OPTIONS request to /api/token is answered 200
by the CORS preflight branch of the worker, not 405. -/
theorem options_token_returns_200 :
    (workerFetch (constKit (anonPayload "u" 0 1))
        { method := "OPTIONS", path := "/api/token", authHeader := none,
          jsonOk := true, downstream := .ok 200 } baseEnv true 0).1 = 200
    ∧ (workerFetch (constKit (anonPayload "u" 0 1))
        { method := "OPTIONS", path := "/api/token", authHeader := none,
          jsonOk := true, downstream := .ok 200 } baseEnv true 0).1 ≠ 405 := by
  decide

/-- C6 amended: a request to /api/token whose method is neither POST nor
OPTIONS is answered 405; OPTIONS is intercepted by the CORS preflight
handling and answered 200 before any routing. -/
theorem token_non_post_405 (kit : CodecKit) (req : Request)
    (env : WorkerEnv) (issueOk : Bool) (nowMs : Int)
    (hpath : req.path = "/api/token")
    (hm : req.method ≠ "POST") (ho : req.method ≠ "OPTIONS") :
    (workerFetch kit req env issueOk nowMs).1 = 405 := by
  have hne : ("/api/token" : String) ≠ "/api/external-service" := by decide
  unfold workerFetch handleTokenRequest
  rw [hpath]
  simp [hm, ho, hne]

/-- C6 witness: a GET to /api/token is answered 405. -/
theorem token_non_post_405_witness :
    (workerFetch (constKit (anonPayload "u" 0 1))
        { method := "GET", path := "/api/token", authHeader := none,
          jsonOk := true, downstream := .ok 200 } baseEnv true 0).1 = 405 :=
  token_non_post_405 (constKit (anonPayload "u" 0 1))
    { method := "GET", path := "/api/token", authHeader := none,
      jsonOk := true, downstream := .ok 200 }
    baseEnv true 0 rfl (by decide) (by decide)

/-! ## C10: quota is consumed before body parse and downstream call -/

/-- C10: for an authenticated POST to /api/external-service with a free
rate-limit slot and healthy stores, the rate-limit timestamp is persisted
and the usage statistics are updated by the rate-limit step itself, before
the body is parsed or the downstream call is made; a request that then
fails with 400 (bad JSON) or 503 (downstream failure) still leaves the
appended timestamp and the incremented usage record in the store. -/
theorem quota_consumed_before_body (kit : CodecKit) (req : Request)
    (env : WorkerEnv) (nowMs : Int)
    (hm : req.method = "POST")
    (hauth : ∃ p, authenticateUser kit req env.jwtSecret nowMs = .ok p)
    (hread : env.rateReadOk = true) (hwrite : env.rateWriteOk = true)
    (hstats : env.statsOk = true)
    (hslot : (keptRequests env.rateStore nowMs).length < maxRequests) :
    (req.jsonOk = false → (handleExternalApiRequest kit req env nowMs).1 = 400)
    ∧ (req.jsonOk = true → req.downstream = .error () →
        (handleExternalApiRequest kit req env nowMs).1 = 503)
    ∧ (handleExternalApiRequest kit req env nowMs).2.rateStore
        = some (keptRequests env.rateStore nowMs ++ [nowMs])
    ∧ (handleExternalApiRequest kit req env nowMs).2.statsStore
        = some (updateUserStats env.statsStore nowMs) := by
  obtain ⟨p, hp⟩ := hauth
  have hstep : checkRateLimit env nowMs
      = ({ allowed := true, retryAfter := none },
         updateUserStatsOp
           { env with rateStore := some (keptRequests env.rateStore nowMs ++ [nowMs]) }
           nowMs) := by
    unfold checkRateLimit
    simp [hread, hwrite, Nat.not_le.mpr hslot]
  have henv2 : handleExternalApiRequest kit req env nowMs
      = ((if !req.jsonOk then 400
          else match req.downstream with
               | .error _ => 503
               | .ok s => s),
         updateUserStatsOp
           { env with rateStore := some (keptRequests env.rateStore nowMs ++ [nowMs]) }
           nowMs) := by
    unfold handleExternalApiRequest
    rw [hp, hstep]
    simp only [hm]
    cases hj : req.jsonOk with
    | false => simp
    | true =>
      cases hd : req.downstream with
      | error e => simp
      | ok s => simp
  refine ⟨?_, ?_, ?_, ?_⟩
  · intro hj
    rw [henv2]
    simp [hj]
  · intro hj hd
    rw [henv2]
    simp [hj, hd]
  · rw [henv2]
    show (updateUserStatsOp _ nowMs).rateStore = _
    rw [updateUserStatsOp_rateStore]
  · rw [henv2]
    show (updateUserStatsOp
        { env with rateStore := some (keptRequests env.rateStore nowMs ++ [nowMs]) }
        nowMs).statsStore = _
    unfold updateUserStatsOp
    simp [hstats]

/-- C10 witness: a request with a bad JSON body still consumes one slot
and one usage count. -/
theorem quota_consumed_before_body_witness :
    (((bReq.jsonOk = false →
        (handleExternalApiRequest (constKit (anonPayload "u" 0 1)) bReq baseEnv 0).1
          = 400))
    ∧ (bReq.jsonOk = true → bReq.downstream = .error () →
        (handleExternalApiRequest (constKit (anonPayload "u" 0 1)) bReq baseEnv 0).1
          = 503)
    ∧ (handleExternalApiRequest (constKit (anonPayload "u" 0 1)) bReq baseEnv 0).2.rateStore
        = some (keptRequests baseEnv.rateStore 0 ++ [0])
    ∧ (handleExternalApiRequest (constKit (anonPayload "u" 0 1)) bReq baseEnv 0).2.statsStore
        = some (updateUserStats baseEnv.statsStore 0)) :=
  quota_consumed_before_body (constKit (anonPayload "u" 0 1)) bReq baseEnv 0
    rfl ⟨anonPayload "u" 0 1, by decide⟩ rfl rfl rfl (by decide)

end Proxy
